import Mathlib

/-!
Verification of the train-detector firmware (darekbx/arduino-train-detector).

The firmware is shallowly embedded: the EEPROM is a byte array addressed by
integers, the global mutable variables of the sketch form an `EngineState`
record, and each C function becomes a Lean function from state to state,
additionally returning the list of 4-byte storage writes it performs
(address/value pairs, one entry per `writeLong` call).

Machine integers: `long` is a 32-bit two signed-complement integer; values are
modelled as `Int` with explicit reduction modulo 2^32 (`wrap32`) at the points
where the C code can overflow (the seconds counter increment, and the byte
codec).  `int` variables of the sketch (`eventAddress`, `memorySize`, `timer`,
`eventTime`) stay in small ranges in every execution considered here and are
likewise modelled as `Int`.
-/

namespace TrainDetector

/-- EEPROM modelled as a total byte array over integer addresses. -/
def Storage : Type := Int → Nat

/-- EEPROM.read: cells hold bytes, so reads are reduced modulo 256. -/
def readByte (s : Storage) (a : Int) : Nat := s a % 256

/-- EEPROM.write: stores one byte at the given address. -/
def writeByte (s : Storage) (a : Int) (b : Nat) : Storage :=
  fun x => if x = a then b % 256 else s x

/-- Interpret a value in [0, 2^32) as a 32-bit two complement signed integer. -/
def toSigned (u : Nat) : Int :=
  if u < 2147483648 then (u : Int) else (u : Int) - 4294967296

/-- Truncation of an integer to a signed 32-bit value (two complement). -/
def wrap32 (n : Int) : Int :=
  if n % 4294967296 < 2147483648 then n % 4294967296
  else n % 4294967296 - 4294967296

/-- #define secondsCounterAddress 0 -/
def secondsCounterAddress : Int := 0

/-- #define eventIndexAddress 4 -/
def eventIndexAddress : Int := 4

/-- int eventAddressStep = 4 -/
def eventAddressStep : Int := 4

/-- #define eventsDelay (second / threadDelay) * 60 = (1000 / 50) * 60 -/
def eventsDelay : Int := 1200

/-- #define counterIncreaseRatio (second / threadDelay) * 1 = (1000 / 50) * 1 -/
def counterIncreaseRatio : Int := 20

/-- writeLong (traindetector.ino lines 203-208): stores the four big-endian
bytes of the 32-bit two complement representation of `number`, most
significant byte at the lowest address.  `(number >> k) & 0xFF` on the signed
long equals the corresponding byte of `number mod 2^32`. -/
def writeLong (s : Storage) (address : Int) (number : Int) : Storage :=
  let u := (number % 4294967296).toNat
  writeByte
    (writeByte
      (writeByte
        (writeByte s address (u / 16777216 % 256))
        (address + 1) (u / 65536 % 256))
      (address + 2) (u / 256 % 256))
    (address + 3) (u % 256)

/-- readLong (traindetector.ino lines 210-215): recombines four big-endian
bytes; the C sum is performed in a signed 32-bit long, hence `toSigned`. -/
def readLong (s : Storage) (address : Int) : Int :=
  toSigned
    (readByte s address * 16777216 +
     readByte s (address + 1) * 65536 +
     readByte s (address + 2) * 256 +
     readByte s (address + 3))

/-- A value representable as a signed 32-bit integer. -/
def int32Range (n : Int) : Prop := -2147483648 ≤ n ∧ n < 2147483648

instance (n : Int) : Decidable (int32Range n) := by
  unfold int32Range; infer_instance

/-- All-zero (factory-fresh) EEPROM contents. -/
def zeroStorage : Storage := fun _ => 0

/-- The global mutable variables of the sketch together with the EEPROM. -/
structure EngineState where
  secondsCounter : Int
  timer : Int
  memorySize : Int
  eventAddress : Int
  hasEvent : Bool
  eventTime : Int
  isReadOnly : Bool
  storage : Storage

/-- A storage write performed via writeLong: (address, value). -/
abbrev LongWrite : Type := Int × Int

/-- isMemoryFull (traindetector.ino lines 116-118). -/
def isMemoryFull (st : EngineState) : Bool := st.eventAddress > st.memorySize

/-- The event branch of handleSensor (traindetector.ino lines 122-130), which
realizes the appendEvent operation of the spec: advance eventAddress by the
step, write the current secondsCounter at the new address, then write the new
address to the event index slot.  Returns the two writeLong calls in program
order. -/
def appendEvent (st : EngineState) : EngineState × List LongWrite :=
  let ea := st.eventAddress + eventAddressStep
  ({ st with
      hasEvent := true
      eventTime := 0
      eventAddress := ea
      storage := writeLong (writeLong st.storage ea st.secondsCounter) eventIndexAddress ea },
   [(ea, st.secondsCounter), (eventIndexAddress, ea)])

/-- handleSensor (traindetector.ino lines 120-147).  The third component is
true when the event branch fired (an EventPulse emission). -/
def handleSensor (sensorHigh : Bool) (st : EngineState) :
    EngineState × List LongWrite × Bool :=
  let fired := !st.hasEvent && sensorHigh
  let r := if fired then appendEvent st else (st, [])
  let st1 := r.1
  let st2 :=
    if st1.hasEvent then
      let et := st1.eventTime + 1
      if et > eventsDelay then { st1 with eventTime := et, hasEvent := false }
      else { st1 with eventTime := et }
    else st1
  (st2, r.2, fired)

/-- Body of the ratio branch of handleTimer (traindetector.ino lines 154-162),
named increaseSeconds in the src/unnamed/part_000 variant (lines 179-188):
increment the seconds counter and persist it at its fixed offset. -/
def increaseSeconds (st : EngineState) : EngineState × List LongWrite :=
  let c := wrap32 (st.secondsCounter + 1)
  ({ st with
      secondsCounter := c
      storage := writeLong st.storage secondsCounterAddress c },
   [(secondsCounterAddress, c)])

/-- handleTimer (traindetector.ino lines 149-164). -/
def handleTimer (st : EngineState) : EngineState × List LongWrite :=
  let t := st.timer + 1
  if t ≥ counterIncreaseRatio then increaseSeconds { st with timer := 0 }
  else ({ st with timer := t }, [])

/-- initializeEventAddress (src/unnamed/part_000 lines 82-88, identical to
traindetector.ino setup lines 55-59): read the stored event index; if the
decoded value is ≤ 0, write the decoded value back and reset the in-memory
pointer to eventIndexAddress. -/
def initializeEventAddress (st : EngineState) : EngineState × List LongWrite :=
  let ea := readLong st.storage eventIndexAddress
  if ea ≤ 0 then
    ({ st with
        storage := writeLong st.storage eventIndexAddress ea
        eventAddress := eventIndexAddress },
     [(eventIndexAddress, ea)])
  else ({ st with eventAddress := ea }, [])

/-- initializeSecondsCounter (src/unnamed/part_000 lines 90-96): read the
stored seconds counter; if the decoded value is ≤ 0, persist 0 and reset the
in-memory counter to 0. -/
def initializeSecondsCounter (st : EngineState) : EngineState × List LongWrite :=
  let sc := readLong st.storage secondsCounterAddress
  if sc ≤ 0 then
    ({ st with
        secondsCounter := 0
        storage := writeLong st.storage secondsCounterAddress 0 },
     [(secondsCounterAddress, 0)])
  else ({ st with secondsCounter := sc }, [])

/-- One iteration of loop() (traindetector.ino lines 88-114): in read-only
mode or when memory is full, nothing runs; otherwise handleSensor then
handleTimer (handleStatusLed touches no engine state or storage). -/
def loopStep (sensorHigh : Bool) (st : EngineState) :
    EngineState × List LongWrite :=
  if st.isReadOnly then (st, [])
  else if isMemoryFull st then (st, [])
  else
    let hs := handleSensor sensorHigh st
    let ht := handleTimer hs.1
    (ht.1, hs.2.1 ++ ht.2)

/-- Iterated loop(): one iteration per sensor sample, collecting all writes. -/
def loopRun : List Bool → EngineState → EngineState × List LongWrite
  | [], st => (st, [])
  | x :: rest, st =>
    let r := loopStep x st
    let r2 := loopRun rest r.1
    (r2.1, r.2 ++ r2.2)

/-- The pulse trace of the debounce machine: one boolean per polling tick,
true when handleSensor fired its event branch on that tick. -/
def sensorRun : List Bool → EngineState → List Bool
  | [], _ => []
  | x :: rest, st =>
    let r := handleSensor x st
    r.2.2 :: sensorRun rest r.1

/-- Iterated handleTimer. -/
def handleTimerN : Nat → EngineState → EngineState
  | 0, st => st
  | n + 1, st => handleTimerN n (handleTimer st).1

/-- Iterated increaseSeconds (the semantic tick of the spec). -/
def increaseSecondsN : Nat → EngineState → EngineState
  | 0, st => st
  | n + 1, st => increaseSecondsN n (increaseSeconds st).1

/-- Iterated appendEvent. -/
def appendN : Nat → EngineState → EngineState
  | 0, st => st
  | n + 1, st => appendN n (appendEvent st).1

/-- A log-building run: each element n of the list stands for n handleTimer
calls followed by one successful appendEvent.  Returns the final state and
the secondsCounter snapshot taken by each append, in append order. -/
def runSegs : List Nat → EngineState → EngineState × List Int
  | [], st => (st, [])
  | n :: rest, st =>
    let st1 := handleTimerN n st
    let st2 := (appendEvent st1).1
    let r := runSegs rest st2
    (r.1, st1.secondsCounter :: r.2)

/-- A normal-mode state with two records already in the log: counter 5,
event pointer 8 (the initial record address), 512-byte EEPROM. -/
def c1State : EngineState :=
  { secondsCounter := 5, timer := 0, memorySize := 512, eventAddress := 8,
    hasEvent := false, eventTime := 0, isReadOnly := false,
    storage := zeroStorage }

/-- State at the start of setup() on factory-fresh (all-zero) storage:
the global initializers of the sketch (eventAddress = 8 etc.). -/
def c2Blank : EngineState :=
  { secondsCounter := 0, timer := 0, memorySize := 512, eventAddress := 8,
    hasEvent := false, eventTime := 0, isReadOnly := false,
    storage := zeroStorage }

/-- A state whose event pointer has passed the storage capacity. -/
def c3FullState : EngineState :=
  { secondsCounter := 100, timer := 0, memorySize := 512, eventAddress := 516,
    hasEvent := false, eventTime := 0, isReadOnly := false,
    storage := zeroStorage }

/-- EEPROM contents with the index slot (bytes 4..7) holding big-endian 124
and everything else zero: a legal log whose last record sits at address 124. -/
def c4Storage : Storage := fun a => if a = 7 then 124 else 0

/-- Boot state of a 128-byte-EEPROM board restarting on `c4Storage`. -/
def c4Boot : EngineState :=
  { secondsCounter := 0, timer := 0, memorySize := 128, eventAddress := 8,
    hasEvent := false, eventTime := 0, isReadOnly := false,
    storage := c4Storage }

/-- The state after setup() runs both initializers on `c4Boot`. -/
def c4State : EngineState :=
  (initializeSecondsCounter (initializeEventAddress c4Boot).1).1

/-- An empty-log normal-mode state: event pointer at the index address. -/
def c5State : EngineState :=
  { secondsCounter := 3, timer := 0, memorySize := 512, eventAddress := 4,
    hasEvent := false, eventTime := 0, isReadOnly := false,
    storage := zeroStorage }

/-- A normal-mode state with the seconds counter at 0. -/
def c6State : EngineState :=
  { secondsCounter := 0, timer := 0, memorySize := 512, eventAddress := 4,
    hasEvent := false, eventTime := 0, isReadOnly := false,
    storage := zeroStorage }

/-- EEPROM contents with the index slot (bytes 4..7) holding big-endian 6
(a positive but misaligned index) and everything else zero. -/
def c10Storage : Storage := fun a => if a = 7 then 6 else 0

/-- Boot state of a tiny 4-byte-capacity board restarting on `c10Storage`. -/
def c10Boot : EngineState :=
  { secondsCounter := 0, timer := 0, memorySize := 4, eventAddress := 8,
    hasEvent := false, eventTime := 0, isReadOnly := false,
    storage := c10Storage }

section CodecLemmas

lemma readByte_writeByte_same (s : Storage) (a : Int) (b : Nat) :
    readByte (writeByte s a b) a = b % 256 := by
  simp [readByte, writeByte, Nat.mod_mod_of_dvd]

lemma readByte_writeByte_ne (s : Storage) (a : Int) (b : Nat) (x : Int)
    (h : x ≠ a) : readByte (writeByte s a b) x = readByte s x := by
  simp [readByte, writeByte, h]

lemma readByte_writeLong_ne (s : Storage) (b v x : Int)
    (h : x ≠ b ∧ x ≠ b + 1 ∧ x ≠ b + 2 ∧ x ≠ b + 3) :
    readByte (writeLong s b v) x = readByte s x := by
  unfold writeLong
  rw [readByte_writeByte_ne _ _ _ _ h.2.2.2, readByte_writeByte_ne _ _ _ _ h.2.2.1,
    readByte_writeByte_ne _ _ _ _ h.2.1, readByte_writeByte_ne _ _ _ _ h.1]

/-- Reading a long whose four bytes were just written recovers the value,
reduced to signed 32 bits. -/
lemma readLong_writeLong_same (s : Storage) (a v : Int) :
    readLong (writeLong s a v) a = wrap32 v := by
  have h1 : a ≠ a + 1 := by omega
  have h2 : a ≠ a + 2 := by omega
  have h3 : a ≠ a + 3 := by omega
  have h4 : a + 1 ≠ a + 2 := by omega
  have h5 : a + 1 ≠ a + 3 := by omega
  have h6 : a + 2 ≠ a + 3 := by omega
  have hv : 0 ≤ v % 4294967296 := Int.emod_nonneg v (by norm_num)
  have hlt : v % 4294967296 < 4294967296 := Int.emod_lt_of_pos v (by norm_num)
  unfold readLong writeLong
  rw [readByte_writeByte_ne _ _ _ _ h3, readByte_writeByte_ne _ _ _ _ h2,
    readByte_writeByte_ne _ _ _ _ h1, readByte_writeByte_same,
    readByte_writeByte_ne _ _ _ _ h5, readByte_writeByte_ne _ _ _ _ h4,
    readByte_writeByte_same,
    readByte_writeByte_ne _ _ _ _ h6, readByte_writeByte_same,
    readByte_writeByte_same]
  have hu : (v % 4294967296).toNat < 4294967296 := by omega
  have hrecomb :
      (v % 4294967296).toNat / 16777216 % 256 % 256 * 16777216 +
      (v % 4294967296).toNat / 65536 % 256 % 256 * 65536 +
      (v % 4294967296).toNat / 256 % 256 % 256 * 256 +
      (v % 4294967296).toNat % 256 % 256 = (v % 4294967296).toNat := by
    omega
  rw [hrecomb]
  unfold toSigned wrap32
  have hcast : (((v % 4294967296).toNat : Int)) = v % 4294967296 :=
    Int.toNat_of_nonneg hv
  split <;> split <;> omega

/-- Writing a long at a disjoint address does not change a long read. -/
lemma readLong_writeLong_ne (s : Storage) (b v a : Int)
    (h : a + 3 < b ∨ b + 3 < a) :
    readLong (writeLong s b v) a = readLong s a := by
  unfold readLong
  rw [readByte_writeLong_ne _ _ _ _ (by omega), readByte_writeLong_ne _ _ _ _ (by omega),
    readByte_writeLong_ne _ _ _ _ (by omega), readByte_writeLong_ne _ _ _ _ (by omega)]

lemma wrap32_eq_self {n : Int} (h : int32Range n) : wrap32 n = n := by
  obtain ⟨h1, h2⟩ := h
  unfold wrap32
  have := Int.emod_emod_of_dvd n (dvd_refl (4294967296 : Int))
  split <;> omega

lemma wrap32_range (n : Int) : int32Range (wrap32 n) := by
  have hv : 0 ≤ n % 4294967296 := Int.emod_nonneg n (by norm_num)
  have hlt : n % 4294967296 < 4294967296 := Int.emod_lt_of_pos n (by norm_num)
  unfold wrap32 int32Range
  split <;> omega

lemma wrap32_congr {x y : Int} (h : x % 4294967296 = y % 4294967296) :
    wrap32 x = wrap32 y := by
  unfold wrap32
  rw [h]

lemma wrap32_emod (x : Int) : wrap32 x % 4294967296 = x % 4294967296 := by
  have hv : 0 ≤ x % 4294967296 := Int.emod_nonneg x (by norm_num)
  have hlt : x % 4294967296 < 4294967296 := Int.emod_lt_of_pos x (by norm_num)
  unfold wrap32
  split <;> omega

end CodecLemmas

/-- C7: for every 32-bit signed integer v, reading back an encoded value
recovers v (decodeLong after encodeLong is the identity on int32), and the
encoding places the most significant byte of the 32-bit representation at the
lowest address. -/
theorem readLong_writeLong_roundtrip (s : Storage) (a v : Int)
    (h1 : -2147483648 ≤ v) (h2 : v < 2147483648) :
    readLong (writeLong s a v) a = v ∧
    writeLong s a v a = (v % 4294967296).toNat / 16777216 % 256 := by
  constructor
  · rw [readLong_writeLong_same]
    exact wrap32_eq_self ⟨h1, h2⟩
  · unfold writeLong writeByte
    have h1 : a ≠ a + 1 := by omega
    have h2 : a ≠ a + 2 := by omega
    have h3 : a ≠ a + 3 := by omega
    simp only [if_neg h3, if_neg h2, if_neg h1, if_pos rfl]
    exact Nat.mod_mod_of_dvd _ (dvd_refl 256)

/-- C7 witness: the round-trip theorem applied at INT32_MIN. -/
theorem readLong_writeLong_roundtrip_witness :
    (-2147483648 ≤ (-2147483648 : Int)) ∧ ((-2147483648 : Int) < 2147483648) ∧
    readLong (writeLong zeroStorage 0 (-2147483648)) 0 = -2147483648 :=
  ⟨by norm_num, by norm_num,
    (readLong_writeLong_roundtrip zeroStorage 0 (-2147483648)
      (by norm_num) (by norm_num)).1⟩

lemma appendN_eventAddress (n : Nat) (st : EngineState) :
    (appendN n st).eventAddress = st.eventAddress + 4 * n := by
  induction n generalizing st with
  | zero => simp [appendN]
  | succ n ih =>
    rw [appendN, ih]
    simp only [appendEvent, eventAddressStep]
    push_cast
    ring

/-- C1: the claim states that appendEvent persists the advanced pointer to the
index offset first and the secondsCounter payload second.  The code does the
opposite: from the state `c1State` (pointer 8, counter 5) the first writeLong
is the payload (12, 5) at the new pointer address and the second is the index
write (4, 12), so the claimed order is refuted. -/
theorem appendEvent_first_write_is_payload :
    (appendEvent c1State).2 = [(12, 5), (4, 12)] ∧
    (appendEvent c1State).2 ≠ [(4, 12), (12, 5)] := by
  constructor
  · rfl
  · decide

/-- C1 amended: for every non-full engine state, appendEvent advances the
pointer by the step (4) and performs its two storage writes in this order: it
first persists the current secondsCounter at the new pointer address, and only
afterwards persists the new pointer value to the fixed index offset (4). -/
theorem appendEvent_write_order (st : EngineState)
    (_h : isMemoryFull st = false) :
    (appendEvent st).2 =
      [(st.eventAddress + eventAddressStep, st.secondsCounter),
       (eventIndexAddress, st.eventAddress + eventAddressStep)] ∧
    (appendEvent st).1.eventAddress = st.eventAddress + eventAddressStep :=
  ⟨rfl, rfl⟩

/-- C1 amended witness: the write-order theorem applied at `c1State`. -/
theorem appendEvent_write_order_witness :
    isMemoryFull c1State = false ∧
    (appendEvent c1State).2 =
      [(c1State.eventAddress + eventAddressStep, c1State.secondsCounter),
       (eventIndexAddress, c1State.eventAddress + eventAddressStep)] :=
  ⟨by decide, (appendEvent_write_order c1State (by decide)).1⟩

/-- C2: on factory-fresh all-zero storage the initializer does set the
in-memory pointer to 4, but the value it persists back to the index offset is
the stale decoded value 0 (the writeLong runs before the pointer is healed),
not 4 as the claim states: after the initializer the index slot still decodes
to 0. -/
theorem initializeEventAddress_persists_stale_value :
    (initializeEventAddress c2Blank).1.eventAddress = 4 ∧
    (initializeEventAddress c2Blank).2 = [(4, 0)] ∧
    readLong (initializeEventAddress c2Blank).1.storage eventIndexAddress = 0 := by
  refine ⟨by decide, by decide, by decide⟩

/-- C3: once the event pointer exceeds the storage capacity, isMemoryFull is
true, the polling loop refuses every further append, the engine state (and in
particular the storage) never changes again, zero storage writes occur, and
the full condition holds permanently. -/
theorem loopRun_full_no_writes (inputs : List Bool) (st : EngineState)
    (h : isMemoryFull st = true) :
    (loopRun inputs st).1 = st ∧ (loopRun inputs st).2 = [] ∧
    isMemoryFull (loopRun inputs st).1 = true := by
  induction inputs with
  | nil => exact ⟨rfl, rfl, h⟩
  | cons x rest ih =>
    have hstep : loopStep x st = (st, []) := by
      by_cases hro : st.isReadOnly = true
      · simp [loopStep, hro]
      · simp [loopStep, hro, h]
    obtain ⟨ih1, ih2, ih3⟩ := ih
    refine ⟨?_, ?_, ?_⟩
    · simp only [loopRun, hstep]
      exact ih1
    · simp only [loopRun, hstep]
      simpa using ih2
    · simp only [loopRun, hstep]
      exact ih3

/-- C3 witness: the permanence theorem applied at a concrete full state
(pointer 516 on a 512-byte EEPROM) and a two-tick input trace. -/
theorem loopRun_full_no_writes_witness :
    isMemoryFull c3FullState = true ∧
    (loopRun [true, true] c3FullState).1 = c3FullState :=
  ⟨by decide, (loopRun_full_no_writes [true, true] c3FullState (by decide)).1⟩

/-- C9: whenever the stored seconds counter decodes to a value ≤ 0, the
initializer resets the in-memory counter to 0 and persists 0 back to the
fixed offset (its single storage write is (0, 0), and the slot re-reads as 0). -/
theorem initializeSecondsCounter_resets_and_persists (st : EngineState)
    (h : readLong st.storage secondsCounterAddress ≤ 0) :
    (initializeSecondsCounter st).1.secondsCounter = 0 ∧
    readLong (initializeSecondsCounter st).1.storage secondsCounterAddress = 0 ∧
    (initializeSecondsCounter st).2 = [(secondsCounterAddress, 0)] := by
  have hres : initializeSecondsCounter st =
      ({ st with
          secondsCounter := 0
          storage := writeLong st.storage secondsCounterAddress 0 },
       [(secondsCounterAddress, 0)]) := by
    simp only [initializeSecondsCounter, if_pos h]
  rw [hres]
  refine ⟨rfl, ?_, rfl⟩
  rw [readLong_writeLong_same]
  decide

/-- C9 witness: the reset theorem applied to factory-fresh all-zero storage. -/
theorem initializeSecondsCounter_resets_and_persists_witness :
    readLong c2Blank.storage secondsCounterAddress ≤ 0 ∧
    (initializeSecondsCounter c2Blank).1.secondsCounter = 0 :=
  ⟨by decide, (initializeSecondsCounter_resets_and_persists c2Blank (by decide)).1⟩

/-- C10: a stored index value v > 0 is accepted verbatim with no alignment or
upper-bound validation and no storage write; if v exceeds the capacity the
engine immediately reports full; and every subsequent record write lands at
v + 4(n+1), so a misaligned v keeps all record addresses misaligned. -/
theorem initializeEventAddress_accepts_positive_verbatim (st : EngineState)
    (v : Int) (h1 : readLong st.storage eventIndexAddress = v) (h2 : 0 < v) :
    (initializeEventAddress st).1.eventAddress = v ∧
    (initializeEventAddress st).2 = [] ∧
    (st.memorySize < v → isMemoryFull (initializeEventAddress st).1 = true) ∧
    (∀ n : Nat, (appendN n (initializeEventAddress st).1).eventAddress = v + 4 * n) ∧
    (v % 4 ≠ 0 → ∀ n : Nat,
      (appendN (n + 1) (initializeEventAddress st).1).eventAddress % 4 ≠ 0) := by
  have hnot : ¬ v ≤ 0 := by omega
  have hres : initializeEventAddress st = ({ st with eventAddress := v }, []) := by
    simp only [initializeEventAddress, h1, if_neg hnot]
  rw [hres]
  refine ⟨rfl, rfl, ?_, ?_, ?_⟩
  · intro hcap
    simp only [isMemoryFull, decide_eq_true_eq]
    exact hcap
  · intro n
    rw [appendN_eventAddress]
  · intro hmis n
    rw [appendN_eventAddress, Int.add_mul_emod_self_left]
    exact hmis

/-- C10 witness: the verbatim-acceptance theorem applied to storage whose
index slot decodes to the positive misaligned value 6. -/
theorem initializeEventAddress_accepts_positive_verbatim_witness :
    readLong c10Boot.storage eventIndexAddress = 6 ∧ (0 : Int) < 6 ∧
    (initializeEventAddress c10Boot).1.eventAddress = 6 :=
  ⟨by decide, by decide,
    (initializeEventAddress_accepts_positive_verbatim c10Boot 6
      (by decide) (by decide)).1⟩

lemma increaseSecondsN_succ (n : Nat) (st : EngineState) :
    increaseSecondsN (n + 1) st = (increaseSeconds (increaseSecondsN n st)).1 := by
  induction n generalizing st with
  | zero => rfl
  | succ n ih =>
    rw [increaseSecondsN, ih]
    rfl

lemma increaseSecondsN_counter (n : Nat) (st : EngineState)
    (h : int32Range st.secondsCounter) :
    (increaseSecondsN n st).secondsCounter = wrap32 (st.secondsCounter + n) := by
  induction n generalizing st with
  | zero =>
    simpa [increaseSecondsN] using (wrap32_eq_self h).symm
  | succ n ih =>
    rw [increaseSecondsN]
    rw [ih (increaseSeconds st).1 (wrap32_range _)]
    have hstep : (increaseSeconds st).1.secondsCounter = wrap32 (st.secondsCounter + 1) := rfl
    rw [hstep]
    apply wrap32_congr
    rw [Int.add_emod_eq_add_mod_right _ (wrap32_emod (st.secondsCounter + 1))]
    omega

lemma increaseSeconds_persist (st : EngineState) :
    readLong (increaseSeconds st).1.storage secondsCounterAddress =
      (increaseSeconds st).1.secondsCounter := by
  have h : (increaseSeconds st).1.storage =
      writeLong st.storage secondsCounterAddress (wrap32 (st.secondsCounter + 1)) := rfl
  rw [h, readLong_writeLong_same]
  exact wrap32_eq_self (wrap32_range _)

/-- C6 counterexample: starting from a counter of 0, after 2^31 semantic ticks
the in-memory counter has wrapped to -2^31, not to 0 + 2^31 as the claim
requires for every N. -/
theorem increaseSecondsN_overflow_counterexample :
    (increaseSecondsN 2147483648 c6State).secondsCounter ≠
      c6State.secondsCounter + 2147483648 := by
  rw [increaseSecondsN_counter 2147483648 c6State (by decide)]
  decide

/-- C6 amended: for every N with no 32-bit overflow (initial counter in int32
range and initial + N < 2^31), N semantic ticks leave the in-memory counter at
initial + N, and after every individual tick the 4 bytes persisted at offset 0
decode to the current in-memory counter (the persistence half needs no
overflow bound at all). -/
theorem increaseSecondsN_no_overflow (st : EngineState) (N : Nat)
    (h1 : int32Range st.secondsCounter)
    (h2 : st.secondsCounter + N < 2147483648) :
    (increaseSecondsN N st).secondsCounter = st.secondsCounter + N ∧
    ∀ k : Nat, 1 ≤ k → k ≤ N →
      readLong (increaseSecondsN k st).storage secondsCounterAddress =
        (increaseSecondsN k st).secondsCounter := by
  constructor
  · rw [increaseSecondsN_counter N st h1]
    obtain ⟨hl, hr⟩ := h1
    apply wrap32_eq_self
    constructor
    · have : (0 : Int) ≤ (N : Int) := Int.natCast_nonneg N
      omega
    · exact h2
  · intro k hk1 _
    obtain ⟨m, rfl⟩ : ∃ m, k = m + 1 := ⟨k - 1, by omega⟩
    rw [increaseSecondsN_succ]
    exact increaseSeconds_persist _

/-- C6 amended witness: five ticks from a zero counter. -/
theorem increaseSecondsN_no_overflow_witness :
    int32Range c6State.secondsCounter ∧
    c6State.secondsCounter + (5 : Nat) < 2147483648 ∧
    (increaseSecondsN 5 c6State).secondsCounter = c6State.secondsCounter + (5 : Nat) :=
  ⟨by decide, by decide,
    (increaseSecondsN_no_overflow c6State 5 (by decide) (by decide)).1⟩

/-- C4: a reachable one-step scenario writing out of bounds.  A 128-byte
EEPROM restarts with a persisted index of 124 (the last 4-byte-aligned record
slot, a state any full log reaches); setup accepts it, isMemoryFull is false,
and the very next sensor trigger makes the loop write the new record at byte
addresses 128..131 — outside the storage bounds [0, 128) — refuting the claim
that the engine checks keep every storage write in range. -/
theorem record_write_out_of_bounds :
    c4State.memorySize = 128 ∧
    c4State.eventAddress = 124 ∧
    isMemoryFull c4State = false ∧
    (loopStep true c4State).2 = [(128, 0), (4, 128)] ∧
    ¬ ((128 : Int) < c4State.memorySize) := by
  refine ⟨by decide, by decide, by decide, by decide, by decide⟩

lemma handleTimer_eventAddress (st : EngineState) :
    (handleTimer st).1.eventAddress = st.eventAddress := by
  simp only [handleTimer, increaseSeconds]
  split <;> rfl

lemma handleTimer_secondsCounter_int32 (st : EngineState)
    (h : int32Range st.secondsCounter) :
    int32Range (handleTimer st).1.secondsCounter := by
  simp only [handleTimer, increaseSeconds]
  split
  · exact wrap32_range _
  · exact h

lemma handleTimer_readLong_ge4 (st : EngineState) (x : Int) (hx : 4 ≤ x) :
    readLong (handleTimer st).1.storage x = readLong st.storage x := by
  simp only [handleTimer, increaseSeconds]
  split
  · exact readLong_writeLong_ne _ _ _ _ (Or.inr (by simp only [secondsCounterAddress]; omega))
  · rfl

lemma handleTimerN_eventAddress (n : Nat) (st : EngineState) :
    (handleTimerN n st).eventAddress = st.eventAddress := by
  induction n generalizing st with
  | zero => rfl
  | succ n ih => rw [handleTimerN, ih, handleTimer_eventAddress]

lemma handleTimerN_secondsCounter_int32 (n : Nat) (st : EngineState)
    (h : int32Range st.secondsCounter) :
    int32Range (handleTimerN n st).secondsCounter := by
  induction n generalizing st with
  | zero => exact h
  | succ n ih => exact ih _ (handleTimer_secondsCounter_int32 st h)

lemma handleTimerN_readLong_ge4 (n : Nat) (st : EngineState) (x : Int)
    (hx : 4 ≤ x) :
    readLong (handleTimerN n st).storage x = readLong st.storage x := by
  induction n generalizing st with
  | zero => rfl
  | succ n ih => rw [handleTimerN, ih, handleTimer_readLong_ge4 st x hx]

lemma appendEvent_readLong_new (st : EngineState)
    (h : int32Range st.secondsCounter) (ha : 4 ≤ st.eventAddress) :
    readLong (appendEvent st).1.storage (st.eventAddress + 4) =
      st.secondsCounter := by
  have hst : (appendEvent st).1.storage =
      writeLong (writeLong st.storage (st.eventAddress + eventAddressStep) st.secondsCounter)
        eventIndexAddress (st.eventAddress + eventAddressStep) := rfl
  rw [hst]
  simp only [eventAddressStep, eventIndexAddress]
  rw [readLong_writeLong_ne _ _ _ _ (Or.inr (by omega)), readLong_writeLong_same]
  exact wrap32_eq_self h

lemma appendEvent_readLong_old (st : EngineState) (x : Int)
    (hx8 : 8 ≤ x) (hxa : x + 3 < st.eventAddress + 4) :
    readLong (appendEvent st).1.storage x = readLong st.storage x := by
  have hst : (appendEvent st).1.storage =
      writeLong (writeLong st.storage (st.eventAddress + eventAddressStep) st.secondsCounter)
        eventIndexAddress (st.eventAddress + eventAddressStep) := rfl
  rw [hst]
  simp only [eventAddressStep, eventIndexAddress]
  rw [readLong_writeLong_ne _ _ _ _ (Or.inr (by omega)),
    readLong_writeLong_ne _ _ _ _ (Or.inl (by omega))]

lemma appendEvent_eventAddress (st : EngineState) :
    (appendEvent st).1.eventAddress = st.eventAddress + 4 := rfl

lemma appendEvent_secondsCounter (st : EngineState) :
    (appendEvent st).1.secondsCounter = st.secondsCounter := rfl

lemma runSegs_eventAddress (segs : List Nat) (st : EngineState) :
    (runSegs segs st).1.eventAddress = st.eventAddress + 4 * segs.length := by
  induction segs generalizing st with
  | nil => simp [runSegs]
  | cons n rest ih =>
    show (runSegs rest (appendEvent (handleTimerN n st)).1).1.eventAddress = _
    rw [ih, appendEvent_eventAddress, handleTimerN_eventAddress]
    simp only [List.length_cons]
    push_cast
    ring

lemma runSegs_length (segs : List Nat) (st : EngineState) :
    (runSegs segs st).2.length = segs.length := by
  induction segs generalizing st with
  | nil => rfl
  | cons n rest ih =>
    show ((handleTimerN n st).secondsCounter :: (runSegs rest _).2).length = _
    simp [ih]

lemma runSegs_readLong_low (segs : List Nat) (st : EngineState) (x : Int)
    (hx8 : 8 ≤ x) (hxa : x + 3 < st.eventAddress + 4) :
    readLong (runSegs segs st).1.storage x = readLong st.storage x := by
  induction segs generalizing st with
  | nil => rfl
  | cons n rest ih =>
    show readLong (runSegs rest (appendEvent (handleTimerN n st)).1).1.storage x = _
    rw [ih _ (by rw [appendEvent_eventAddress, handleTimerN_eventAddress]; omega),
      appendEvent_readLong_old _ _ hx8 (by rw [handleTimerN_eventAddress]; omega),
      handleTimerN_readLong_ge4 _ _ _ (by omega)]

lemma runSegs_readback (segs : List Nat) (st : EngineState)
    (ha : 4 ≤ st.eventAddress) (hc : int32Range st.secondsCounter) :
    ∀ i : Nat, i < segs.length →
      (runSegs segs st).2[i]? =
        some (readLong (runSegs segs st).1.storage (st.eventAddress + 4 + 4 * i)) := by
  induction segs generalizing st with
  | nil => intro i hi; simp at hi
  | cons n rest ih =>
    intro i hi
    have hsnap :
        (runSegs (n :: rest) st).2 =
          (handleTimerN n st).secondsCounter ::
            (runSegs rest (appendEvent (handleTimerN n st)).1).2 := rfl
    have hfin :
        (runSegs (n :: rest) st).1 =
          (runSegs rest (appendEvent (handleTimerN n st)).1).1 := rfl
    have hea : (handleTimerN n st).eventAddress = st.eventAddress :=
      handleTimerN_eventAddress n st
    have hint : int32Range (handleTimerN n st).secondsCounter :=
      handleTimerN_secondsCounter_int32 n st hc
    rw [hsnap, hfin]
    cases i with
    | zero =>
      simp only [List.getElem?_cons_zero, Nat.cast_zero, mul_zero, add_zero]
      congr 1
      rw [runSegs_readLong_low rest _ _ (by omega)
          (by rw [appendEvent_eventAddress, hea]; omega)]
      rw [show st.eventAddress + 4 = (handleTimerN n st).eventAddress + 4 by rw [hea]]
      exact (appendEvent_readLong_new _ hint (by omega)).symm
    | succ j =>
      simp only [List.getElem?_cons_succ]
      rw [ih _ (by rw [appendEvent_eventAddress, hea]; omega)
          (by rw [appendEvent_secondsCounter]; exact hint) j
          (by simpa using hi)]
      congr 2
      rw [appendEvent_eventAddress, hea]
      push_cast
      ring

/-- C5: starting from the empty-log state (pointer at the index address, any
in-range counter), after K successful appendEvent calls (with arbitrary
handleTimer ticks between them) the event pointer equals eventIndexAddress +
4K, exactly K snapshots were taken, and reading back slot i at address
eventIndexAddress + 4 + 4i returns the i-th appended secondsCounter snapshot,
in append order. -/
theorem runSegs_pointer_and_readback (segs : List Nat) (st : EngineState)
    (h1 : st.eventAddress = eventIndexAddress)
    (h2 : int32Range st.secondsCounter) :
    (runSegs segs st).1.eventAddress = eventIndexAddress + 4 * segs.length ∧
    (runSegs segs st).2.length = segs.length ∧
    ∀ i : Nat, i < segs.length →
      (runSegs segs st).2[i]? =
        some (readLong (runSegs segs st).1.storage (eventIndexAddress + 4 + 4 * i)) := by
  refine ⟨?_, runSegs_length segs st, ?_⟩
  · rw [runSegs_eventAddress, h1]
  · intro i hi
    have := runSegs_readback segs st (by rw [h1]; decide) h2 i hi
    rwa [h1] at this

/-- C5 witness: two appends (the second after two timer ticks) from the empty
log of `c5State`. -/
theorem runSegs_pointer_and_readback_witness :
    c5State.eventAddress = eventIndexAddress ∧
    int32Range c5State.secondsCounter ∧
    (runSegs [0, 2] c5State).1.eventAddress =
      eventIndexAddress + 4 * ([0, 2] : List Nat).length :=
  ⟨by decide, by decide,
    (runSegs_pointer_and_readback [0, 2] c5State (by decide) (by decide)).1⟩

lemma sensorRun_cons (x : Bool) (rest : List Bool) (st : EngineState) :
    sensorRun (x :: rest) st =
      (handleSensor x st).2.2 :: sensorRun rest (handleSensor x st).1 := rfl

lemma handleSensor_active (x : Bool) (st : EngineState) (h : st.hasEvent = true)
    (hd : ¬ st.eventTime + 1 > eventsDelay) :
    handleSensor x st = ({ st with eventTime := st.eventTime + 1 }, [], false) := by
  simp only [handleSensor, h, Bool.not_true, Bool.false_and, Bool.false_eq_true,
    if_false, if_true, if_neg hd]

lemma handleSensor_pulse (x : Bool) (st : EngineState)
    (hp : (handleSensor x st).2.2 = true) :
    (handleSensor x st).1.hasEvent = true ∧
    (handleSensor x st).1.eventTime = 1 := by
  have hfired : (!st.hasEvent && x) = true := hp
  simp only [Bool.and_eq_true, Bool.not_eq_eq_eq_not, Bool.not_true] at hfired
  obtain ⟨hfe, hx⟩ := hfired
  constructor <;>
    simp [handleSensor, hfe, hx, appendEvent, eventsDelay]

lemma sensorRun_no_pulse_in_cooldown (inputs : List Bool) (st : EngineState)
    (j : Nat) (h : st.hasEvent = true)
    (hj : (j : Int) + st.eventTime ≤ eventsDelay) :
    (sensorRun inputs st)[j]? ≠ some true := by
  induction inputs generalizing st j with
  | nil => simp [sensorRun]
  | cons x rest ih =>
    rw [sensorRun_cons]
    cases j with
    | zero =>
      have hp : (handleSensor x st).2.2 = (!st.hasEvent && x) := rfl
      simp [hp, h]
    | succ m =>
      have hd : ¬ st.eventTime + 1 > eventsDelay := by
        simp only [eventsDelay] at hj ⊢
        push_cast at hj
        omega
      rw [handleSensor_active x st h hd]
      simp only [List.getElem?_cons_succ]
      apply ih
      · exact h
      · show (m : Int) + (st.eventTime + 1) ≤ eventsDelay
        push_cast at hj
        omega

lemma sensorRun_min_gap (inputs : List Bool) (st : EngineState) :
    ∀ i j : Nat, i < j → (j : Int) - (i : Int) ≤ eventsDelay →
      (sensorRun inputs st)[i]? = some true →
      (sensorRun inputs st)[j]? ≠ some true := by
  induction inputs generalizing st with
  | nil => intro i j _ _ hi; simp [sensorRun] at hi
  | cons x rest ih =>
    intro i j hij hgap hi
    rw [sensorRun_cons] at hi ⊢
    cases i with
    | zero =>
      have hp : (handleSensor x st).2.2 = true := by simpa using hi
      obtain ⟨hhe, het⟩ := handleSensor_pulse x st hp
      obtain ⟨m, rfl⟩ : ∃ m, j = m + 1 := ⟨j - 1, by omega⟩
      simp only [List.getElem?_cons_succ]
      apply sensorRun_no_pulse_in_cooldown rest _ m hhe
      rw [het]
      push_cast at hgap ⊢
      omega
    | succ i' =>
      obtain ⟨m, rfl⟩ : ∃ m, j = m + 1 := ⟨j - 1, by omega⟩
      simp only [List.getElem?_cons_succ] at hi ⊢
      exact ih _ i' m (by omega) (by push_cast at hgap ⊢; omega) hi

lemma count_true_le_one (l : List Bool)
    (h : ∀ i j : Nat, i < j → l[i]? = some true → l[j]? = some true → False) :
    l.count true ≤ 1 := by
  induction l with
  | nil => simp
  | cons x xs ih =>
    have htail : ∀ i j : Nat, i < j → xs[i]? = some true →
        xs[j]? = some true → False := by
      intro i j hij hi hj
      exact h (i + 1) (j + 1) (by omega) (by simpa using hi) (by simpa using hj)
    cases x with
    | false =>
      simpa [List.count_cons] using ih htail
    | true =>
      have hz : xs.count true = 0 := by
        by_contra hnz
        have hpos : 0 < xs.count true := Nat.pos_of_ne_zero hnz
        have hmem : true ∈ xs := List.count_pos_iff.mp hpos
        obtain ⟨n, hn⟩ := List.mem_iff_getElem?.mp hmem
        exact h 0 (n + 1) (by omega) (by simp) (by simpa using hn)
      simp [List.count_cons, hz]

/-- C8: for every raw sensor input sequence, every start state of the debounce
machine and every window position, the number of EventPulse emissions within
any window of eventsDelay consecutive polling ticks is at most 1. -/
theorem sensorRun_window_at_most_one_pulse (inputs : List Bool)
    (st : EngineState) (t : Nat) :
    (((sensorRun inputs st).drop t).take eventsDelay.toNat).count true ≤ 1 := by
  apply count_true_le_one
  intro i j hij hi hj
  have hjlt : j < eventsDelay.toNat := by
    have := List.getElem?_eq_some.mp (hj :
      (((sensorRun inputs st).drop t).take eventsDelay.toNat)[j]? = some true)
    obtain ⟨hh, _⟩ := this
    have hlen := List.length_take eventsDelay.toNat ((sensorRun inputs st).drop t)
    omega
  have hilt : i < eventsDelay.toNat := by omega
  rw [List.getElem?_take_of_lt hilt, List.getElem?_drop] at hi
  rw [List.getElem?_take_of_lt hjlt, List.getElem?_drop] at hj
  have hD : eventsDelay.toNat = 1200 := rfl
  apply sensorRun_min_gap inputs st (t + i) (t + j) (by omega) ?_ hi hj
  show ((t + j : Nat) : Int) - ((t + i : Nat) : Int) ≤ eventsDelay
  simp only [eventsDelay]
  push_cast
  omega

end TrainDetector
